import Mathlib

/-!
# BETOFF realtime statistics engine — formal model

Shallow embedding of the BETOFF repository's core: the monetary normalizer,
currency conversion, window filters, statistics aggregator, streak detector,
live-state synchronizer (client, current `App.jsx`), and the mutating server
endpoints (current `server.js`).

Modelling conventions:
* JavaScript numbers are modelled as exact rationals (`ℚ`).  A bet field that
  is absent or non-numeric (so that `Number(x)` is `NaN`) is `none`; the JS
  coercion `Number(x) || 0` is `numOr0`.  Where finiteness of an incoming JS
  number matters (the exchange-rate guard), `JsNum` distinguishes `NaN` and
  the infinities.
* `toFixed` display formatting of `roi`/`avgOdds` is presentation only; the
  model keeps the exact rational value.
* JS `Date` timestamps are modelled as milliseconds with a fixed zero UTC
  offset (no DST): local midnight of a civil date `(y, m, d)` is
  `86400000 * daysFromCivil y m d`, using the standard proleptic-Gregorian
  day count.  All timestamp comparisons in the source compare values built
  from the same local clock, so a fixed offset is faithful.
-/

namespace Betoff

/-- Status string constants from `const STATUS = {...}` in `App.jsx`. -/
def STATUS_WON : String := "Выиграна"

/-- `STATUS.LOST` constant. -/
def STATUS_LOST : String := "Проиграна"

/-- `STATUS.PENDING` constant. -/
def STATUS_PENDING : String := "Нерасчитана"

/-- A bet record.  Fields that may be absent in the JSON object are
`Option`-typed (`none` = key absent / value non-numeric for numeric fields).
`id` and `status` are kept as plain strings with `""` standing for a missing
value (both are only used through string comparison and truthiness tests).
The JS field `match` is `matchField` (`match` is reserved in Lean); the JS
field `bet` is `betField`. -/
structure Bet where
  id : String := ""
  matchField : Option String := none
  betField : Option String := none
  status : String := ""
  stake_value : Option ℚ := none
  stake_currency : Option String := none
  coef : Option ℚ := none
  win_value : Option ℚ := none
  win_currency : Option String := none
  added_date : Option String := none
  time : Option String := none
deriving DecidableEq, Repr

/-- `Number(x) || 0`: an absent/non-numeric field coerces to `0`. -/
def numOr0 (x : Option ℚ) : ℚ := x.getD 0

/-- JS string fallback `a || d`: `a` is replaced by `d` when it is absent or
the empty string (both falsy). -/
def strOr (a : Option String) (d : String) : String :=
  match a with
  | some s => if s = "" then d else s
  | none => d

/-- JS truthiness test `!x` for an optional string: true when absent or `""`. -/
def strFalsy (a : Option String) : Bool :=
  match a with
  | some s => s = ""
  | none => true

/-- `DEFAULT_RUB_RATE = 80.78`. -/
def DEFAULT_RUB_RATE : ℚ := 8078 / 100

/-- `betUnit(b) = b.stake_currency || b.win_currency || 'USDT'`. -/
def betUnit (b : Bet) : String :=
  strOr b.stake_currency (strOr b.win_currency "USDT")

/-- `normalizedWinValue` from `App.jsx` (net profit of a bet):
```js
const win = Number(b.win_value) || 0
const stake = Number(b.stake_value) || 0
if (b.status === STATUS.LOST) return win < 0 ? win : (stake ? -stake : 0)
if (b.status === STATUS.PENDING) return 0
return (win - stake)
``` -/
def normalizedWinValue (b : Bet) : ℚ :=
  let win := numOr0 b.win_value
  let stake := numOr0 b.stake_value
  if b.status = STATUS_LOST then
    if win < 0 then win else if stake ≠ 0 then -stake else 0
  else if b.status = STATUS_PENDING then 0
  else win - stake

/-- `toUSDT(amount, b, rubRate)`:
`unit === 'RUB' ? amount / (Number(rubRate) || DEFAULT_RUB_RATE) : amount`.
`rubRate` is already a number in the app state, so `Number(rubRate) || d`
only replaces `0` by the default. -/
def toUSDT (amount : ℚ) (b : Bet) (rubRate : ℚ) : ℚ :=
  if betUnit b = "RUB" then
    amount / (if rubRate = 0 then DEFAULT_RUB_RATE else rubRate)
  else amount

/-- A JavaScript number as seen at an external boundary, where `NaN` and the
infinities must be distinguished for `Number.isFinite` checks. -/
inductive JsNum where
  | num (q : ℚ)
  | nan
  | posInf
  | negInf
deriving DecidableEq, Repr

/-- `Number.isFinite(v) && v > 0`, the server/client exchange-rate guard. -/
def JsNum.finitePos : JsNum → Bool
  | .num q => decide (0 < q)
  | _ => false

/-- Client `fetchRate()`: the argument is the value `Number(j?.rubPerUsdt)`
from a successful `/api/rate` response, or `none` when the fetch failed or
the response was not ok (both caught paths return the default):
```js
const val = Number(j?.rubPerUsdt)
return Number.isFinite(val) && val>0 ? val : DEFAULT_RUB_RATE
``` -/
def fetchRate (resp : Option JsNum) : ℚ :=
  match resp with
  | some (.num q) => if 0 < q then q else DEFAULT_RUB_RATE
  | _ => DEFAULT_RUB_RATE

/-- `Math.round`: round half toward positive infinity. -/
def jsRound (q : ℚ) : ℤ := ⌊q + 1 / 2⌋

/-- The aggregator's output record.  `roi` and `avgOdds` are kept as exact
rationals (the source's `toFixed(1)` / `toFixed(2)` are display formatting;
the source's `'0.0'` / `0` fallbacks are both modelled as `0`). -/
structure Stats where
  total : ℕ
  winRate : ℤ
  profitUSDT : ℚ
  avgOdds : ℚ
  roi : ℚ
deriving DecidableEq, Repr

/-- `bets.filter(b => b.status !== STATUS.PENDING)` — the eligible subset. -/
def eligibleBets (bets : List Bet) : List Bet :=
  bets.filter (fun b => b.status != STATUS_PENDING)

/-- The body of `calcStats` after the eligibility filter. -/
def statsFromEligible (eligible : List Bet) (rubRate : ℚ) : Stats :=
  let total := eligible.length
  let won := (eligible.filter (fun b => b.status == STATUS_WON)).length
  let winRate : ℤ := if total ≠ 0 then jsRound ((won : ℚ) / (total : ℚ) * 100) else 0
  let profitUSDT := eligible.foldl (fun a b => a + toUSDT (normalizedWinValue b) b rubRate) 0
  let sumStakesUSDT := eligible.foldl (fun a b => a + toUSDT (numOr0 b.stake_value) b rubRate) 0
  let roi := if sumStakesUSDT ≠ 0 then profitUSDT / sumStakesUSDT * 100 else 0
  let avgOdds := if total ≠ 0 then (eligible.foldl (fun a b => a + numOr0 b.coef) 0) / (total : ℚ) else 0
  { total := total, winRate := winRate, profitUSDT := profitUSDT, avgOdds := avgOdds, roi := roi }

/-- `calcStats(bets, rubRate)` from `App.jsx`. -/
def calcStats (bets : List Bet) (rubRate : ℚ) : Stats :=
  statsFromEligible (eligibleBets bets) rubRate

/-- Count of eligible WON bets — the `winRate` numerator of `calcStats`. -/
def wonCount (bets : List Bet) : ℕ :=
  ((eligibleBets bets).filter (fun b => b.status == STATUS_WON)).length

/-! ## Calendar model (`Date` semantics used by the source)

The proleptic-Gregorian day count uses the standard `days_from_civil` /
`civil_from_days` pair (era = 400-year cycle of 146097 days, day 0 =
1970-01-01), which is exactly the calendar arithmetic of a JS `Date`
constructed from local components, with the fixed-zero-offset convention
from the header. -/

/-- Day number since 1970-01-01 of the civil date `(y, m, d)`; `m` is
1-based and may be any integer date component (the formula is linear in `d`,
matching JS day overflow). Valid for `1 ≤ m ≤ 12`. -/
def daysFromCivil (y m d : ℤ) : ℤ :=
  let y2 := if m ≤ 2 then y - 1 else y
  let era := y2.ediv 400
  let yoe := y2 - era * 400
  let mp := if 2 < m then m - 3 else m + 9
  let doy := (153 * mp + 2).ediv 5 + d - 1
  let doe := yoe * 365 + yoe.ediv 4 - yoe.ediv 100 + doy
  era * 146097 + doe - 719468

/-- Inverse of `daysFromCivil`: the civil date `(year, month, day)` (month
1-based) of a day number, i.e. `getFullYear / getMonth()+1 / getDate` of a
local-midnight `Date`. -/
def civilFromDays (z : ℤ) : ℤ × ℤ × ℤ :=
  let z2 := z + 719468
  let era := z2.ediv 146097
  let doe := z2 - era * 146097
  let yoe := (doe - doe.ediv 1460 + doe.ediv 36524 - doe.ediv 146096).ediv 365
  let y := yoe + era * 400
  let doy := doe - (365 * yoe + yoe.ediv 4 - yoe.ediv 100)
  let mp := (5 * doy + 2).ediv 153
  let d := doy - (153 * mp + 2).ediv 5 + 1
  let m := if mp < 10 then mp + 3 else mp - 9
  (if m ≤ 2 then y + 1 else y, m, d)

/-- `new Date(y, m0, d)` with a 0-based month index `m0` that may overflow
into adjacent years, and a day `d` that may overflow the month (JS Date
field normalization), as a day number. -/
def jsMakeDate (y m0 d : ℤ) : ℤ :=
  let ym := y * 12 + m0
  daysFromCivil (ym.ediv 12) (ym.emod 12 + 1) 1 + (d - 1)

/-- The current local date (`new Date()` components): year, 1-based month,
day of month.  The source reads the clock several times inside one filter
call; all reads happen within the same day tick, so one value suffices. -/
structure CivilDate where
  year : ℤ
  month : ℤ
  day : ℤ
deriving DecidableEq, Repr

/-- `pad2(n) = String(n).padStart(2, '0')`. -/
def pad2 (n : ℤ) : String :=
  let s := toString n
  if s.length = 1 then "0" ++ s else s

/-- `todayDMY()` — today's date as `DD/MM/YYYY`. -/
def todayDMY (now : CivilDate) : String :=
  pad2 now.day ++ "/" ++ pad2 now.month ++ "/" ++ toString now.year

/-- JS `String.prototype.trim` whitespace (the characters that can occur in
hand-entered dates: space, tab, and line separators). -/
def jsWhitespace (c : Char) : Bool :=
  c = ' ' || c = '\t' || c = '\n' || c = '\r'

/-- Strip whitespace from both ends of a character list. -/
def trimChars (l : List Char) : List Char :=
  ((l.dropWhile jsWhitespace).reverse.dropWhile jsWhitespace).reverse

/-- `s.trim()` (structural-recursion implementation over the character
list, so that concrete instances are kernel-evaluable). -/
def jsTrim (s : String) : String :=
  String.mk (trimChars s.data)

/-- Split a character list on `'/'` (the `splitOn "/"` of the regex match). -/
def splitSlash : List Char → List (List Char)
  | [] => [[]]
  | c :: rest =>
    if c = '/' then [] :: splitSlash rest
    else
      match splitSlash rest with
      | [] => [[c]]
      | h :: t => (c :: h) :: t

/-- Digit-list value (`Number` of a decimal digit string). -/
def decDigitsVal (l : List Char) : ℕ :=
  l.foldl (fun n c => n * 10 + (c.toNat - 48)) 0

/-- All characters are ASCII decimal digits (JS `\d`). -/
def digitsOnly (l : List Char) : Bool :=
  l.all (fun c => c.isDigit)

/-- The regex `^(\d{1,2})\/(\d{1,2})\/(\d{4})$` as day/month/year capture
groups: exactly three digit runs of lengths 1-2, 1-2, 4 separated by `/`. -/
def dmyParts (s : String) : Option (ℕ × ℕ × ℕ) :=
  match splitSlash s.data with
  | [ds, ms, ys] =>
    if digitsOnly ds && digitsOnly ms && digitsOnly ys
        && decide (1 ≤ ds.length) && decide (ds.length ≤ 2)
        && decide (1 ≤ ms.length) && decide (ms.length ≤ 2)
        && decide (ys.length = 4)
    then some (decDigitsVal ds, decDigitsVal ms, decDigitsVal ys)
    else none
  | _ => none

/-- `parseDMYtoMs` after the `String(dmy||'').trim()` step: regex match,
`new Date(y, mo-1, d)`, then the component round-trip check
`dt.getFullYear()!==y || (dt.getMonth()+1)!==mo || dt.getDate()!==d`
(three component equalities = one triple equality); `none` models the `NaN`
returns.  The result is `dt.getTime()` in ms. -/
def parseDMYcore (s : String) : Option ℤ :=
  match dmyParts s with
  | none => none
  | some (d, mo, y) =>
    let day := jsMakeDate (y : ℤ) ((mo : ℤ) - 1) (d : ℤ)
    if civilFromDays day = ((y : ℤ), (mo : ℤ), (d : ℤ))
    then some (86400000 * day) else none

/-- `parseDMYtoMs(dmy)` on an optional `added_date` field. -/
def parseDMYtoMs (dmy : Option String) : Option ℤ :=
  parseDMYcore (jsTrim (strOr dmy ""))

/-- Local midnight of `now` in ms — `startOfDayMs(Date.now())`. -/
def todayMs (now : CivilDate) : ℤ :=
  86400000 * daysFromCivil now.year now.month now.day

/-- First-of-current-month midnight in ms —
`new Date(now.getFullYear(), now.getMonth(), 1).getTime()`. -/
def startMonthMs (now : CivilDate) : ℤ :=
  86400000 * daysFromCivil now.year now.month 1

/-- First-of-next-month midnight in ms —
`new Date(now.getFullYear(), now.getMonth()+1, 1).getTime()` (the 0-based
month index `now.month` normalizes December into January). -/
def startNextMonthMs (now : CivilDate) : ℤ :=
  86400000 * jsMakeDate now.year now.month 1

/-- `filterBetsByAddedDate(bets, period)` from `App.jsx`; any period other
than `'DAY'` and `'WEEK'` falls through to the MONTH branch, as in the
source. -/
def filterBetsByAddedDate (bets : List Bet) (period : String) (now : CivilDate) : List Bet :=
  if period = "DAY" then
    bets.filter (fun b => jsTrim (strOr b.added_date "") == todayDMY now)
  else if period = "WEEK" then
    bets.filter (fun b =>
      match parseDMYtoMs b.added_date with
      | some t => decide (todayMs now - 6 * 86400000 ≤ t)
          && decide (t ≤ todayMs now + 86400000 - 1)
      | none => false)
  else
    bets.filter (fun b =>
      match parseDMYtoMs b.added_date with
      | some t => decide (startMonthMs now ≤ t) && decide (t < startNextMonthMs now)
      | none => false)

/-! ## Streak detector -/

/-- `calcStreak`'s result `{ kind, count }`. -/
structure Streak where
  kind : String
  count : ℕ
deriving DecidableEq, Repr

/-- The counting loop of `calcStreak` starting at the first non-PENDING
index: skip PENDING, stop (without counting) at the first non-PENDING entry
whose status differs from `target`, count matches. -/
def streakCount (target : String) : List Bet → ℕ
  | [] => 0
  | b :: rest =>
    if b.status = STATUS_PENDING then streakCount target rest
    else if b.status = target then streakCount target rest + 1
    else 0

/-- `calcStreak(list)` from `App.jsx`: the empty list and the all-PENDING
list give `{kind: 'нет', count: 0}`; otherwise the target is the status of
the first non-PENDING entry (`findIndex(b => b.status !== STATUS.PENDING)`,
i.e. `dropWhile` of the PENDING prefix) and the loop counts from there. -/
def calcStreak (list : List Bet) : Streak :=
  match list.dropWhile (fun b => b.status == STATUS_PENDING) with
  | [] => { kind := "нет", count := 0 }
  | b :: rest =>
    { kind := if b.status = STATUS_WON then "побед" else "поражений"
      count := streakCount b.status (b :: rest) }

/-! ## Live state synchronizer (`useRealtimeBets`, `socket.on('bets:update')`) -/

/-- The tagged shapes of a `bets:update` push payload:
an array, a non-array object (`items` key absent or an array, `updatedAt`
already passed through `Number()`, `none` = non-numeric), or anything else
(null / primitive). -/
inductive PushPayload where
  | arr (items : List Bet)
  | obj (items : Option (List Bet)) (updatedAt : Option ℚ)
  | other
deriving DecidableEq, Repr

/-- The client cache touched by the handler: the bet list state, the
`lastEventAt` state, and the `betoff_last_update` localStorage slot. -/
structure SyncState where
  bets : List Bet
  lastEventAt : ℚ
  stored : Option ℚ
deriving DecidableEq, Repr

/-- The `bets:update` handler as a state transition.  `now` is `Date.now()`
at receipt and `meta` the value eventually resolved by `fetchMeta()` (`0` on
failure, as in the source).  For the array shape the source sets
`lastEventAt` to `Date.now()` synchronously (also persisting it) and the
`fetchMeta` continuation later overwrites it when `ts` is truthy; the state
shown is the settled one.  The object shape returns early after adopting
`Number(payload.updatedAt) || Date.now()`; any other shape only refreshes
the marker to `now`. -/
def applyBetsUpdate (now meta : ℚ) (p : PushPayload) (s : SyncState) : SyncState :=
  match p with
  | .arr items =>
    { bets := items
      lastEventAt := if meta ≠ 0 then meta else now
      stored := some now }
  | .obj items updatedAt =>
    let ts := match updatedAt with
      | some q => if q ≠ 0 then q else now
      | none => now
    { bets := items.getD [], lastEventAt := ts, stored := some ts }
  | .other => { s with lastEventAt := now, stored := some now }

/-! ## Server model (`server.js`, current version with rate API and
`added_date` maintenance) -/

/-- A PATCH body: an outer `some` marks a key present in the JSON payload
(spread-merge overwrites exactly the present keys). -/
structure BetPatch where
  id : Option String := none
  matchField : Option (Option String) := none
  betField : Option (Option String) := none
  status : Option String := none
  stake_value : Option (Option ℚ) := none
  stake_currency : Option (Option String) := none
  coef : Option (Option ℚ) := none
  win_value : Option (Option ℚ) := none
  win_currency : Option (Option String) := none
  added_date : Option (Option String) := none
  time : Option (Option String) := none
deriving DecidableEq, Repr

/-- `{ ...b, ...p }`: every key present in the patch overwrites, every other
field keeps its previous value. -/
def mergeBet (b : Bet) (p : BetPatch) : Bet :=
  { id := p.id.getD b.id
    matchField := p.matchField.getD b.matchField
    betField := p.betField.getD b.betField
    status := p.status.getD b.status
    stake_value := p.stake_value.getD b.stake_value
    stake_currency := p.stake_currency.getD b.stake_currency
    coef := p.coef.getD b.coef
    win_value := p.win_value.getD b.win_value
    win_currency := p.win_currency.getD b.win_currency
    added_date := p.added_date.getD b.added_date
    time := p.time.getD b.time }

/-- The PATCH handler's per-record step: spread-merge then
`if(!cache[idx].added_date) cache[idx].added_date = formatDMY(new Date())`. -/
def applyPatchBet (today : String) (p : BetPatch) (b : Bet) : Bet :=
  let m := mergeBet b p
  if strFalsy m.added_date then { m with added_date := some today } else m

/-- `findIndex(x => String(x.id) === id)` followed by in-place replacement:
rewrite the first record whose id matches, keep everything else; `none` when
no record matches (the 404 path). -/
def patchList (id : String) (f : Bet → Bet) : List Bet → Option (List Bet)
  | [] => none
  | b :: rest =>
    if b.id = id then some (f b :: rest)
    else (patchList id f rest).map (fun l => b :: l)

/-- `ensureAddedDateOnArray`: assign today's date to every item without an
`added_date`. -/
def ensureAddedDateOnArray (today : String) (arr : List Bet) : List Bet :=
  arr.map (fun b => if strFalsy b.added_date then { b with added_date := some today } else b)

/-- HTTP outcomes of the API handlers (response payloads beyond the id /
rate value carry no state and are omitted). -/
inductive ApiResp where
  | ok
  | okId (id : String)
  | okRate (r : ℚ)
  | unauthorized
  | badRequest
  | notFound
deriving DecidableEq, Repr

/-- Socket.IO broadcasts emitted by a handler. -/
inductive Emit where
  | betsUpdate (items : List Bet) (updatedAt : ℤ)
  | rateUpdate (r : ℚ)
deriving DecidableEq, Repr

/-- Server-side state: the in-memory `cache`, the persisted `bets.json`
content, the backup directory (one timestamped full snapshot per mutation),
and the rate cache / `rate.json` value (its `updatedAt` stamp alongside). -/
structure ServerState where
  cache : List Bet
  betsFile : List Bet
  backups : List (List Bet)
  rateCache : ℚ
  rateFile : ℚ
  rateFileUpdatedAt : ℤ
deriving DecidableEq, Repr

/-- `writeBets(list, true)`: persist the full snapshot and append a backup
copy. -/
def writeBetsState (st : ServerState) (list : List Bet) : ServerState :=
  { st with betsFile := list, backups := st.backups ++ [list] }

/-- `PUT /api/bets` — replace the whole collection.  `body` is `none` when
the request body is not an array (the 400 path). -/
def putBets (adminPw pw : String) (body : Option (List Bet)) (today : String)
    (now : ℤ) (st : ServerState) : ServerState × ApiResp × List Emit :=
  if pw ≠ adminPw then (st, .unauthorized, [])
  else match body with
    | none => (st, .badRequest, [])
    | some list =>
      let newCache := ensureAddedDateOnArray today list
      (writeBetsState { st with cache := newCache } newCache, .ok,
        [.betsUpdate newCache now])

/-- `POST /api/bets` — prepend one record, assigning `id` (`String(Date.now())`)
and `added_date` when absent. -/
def postBets (adminPw pw : String) (obj : Bet) (today : String) (now : ℤ)
    (st : ServerState) : ServerState × ApiResp × List Emit :=
  if pw ≠ adminPw then (st, .unauthorized, [])
  else
    let obj1 := if obj.id = "" then { obj with id := toString now } else obj
    let obj2 := if strFalsy obj1.added_date then { obj1 with added_date := some today } else obj1
    let newCache := obj2 :: st.cache
    (writeBetsState { st with cache := newCache } newCache, .okId obj2.id,
      [.betsUpdate newCache now])

/-- `PATCH /api/bets/:id` — spread-merge the body into the record found by
id, re-ensure `added_date`, persist, broadcast; 404 when the id is absent. -/
def patchBets (adminPw pw : String) (id : String) (p : BetPatch) (today : String)
    (now : ℤ) (st : ServerState) : ServerState × ApiResp × List Emit :=
  if pw ≠ adminPw then (st, .unauthorized, [])
  else match patchList id (applyPatchBet today p) st.cache with
    | none => (st, .notFound, [])
    | some newCache =>
      (writeBetsState { st with cache := newCache } newCache, .ok,
        [.betsUpdate newCache now])

/-- `DELETE /api/bets/:id` — filter out the record by id; 404 (and no write)
when nothing was removed. -/
def deleteBets (adminPw pw : String) (id : String) (now : ℤ)
    (st : ServerState) : ServerState × ApiResp × List Emit :=
  if pw ≠ adminPw then (st, .unauthorized, [])
  else
    let newCache := st.cache.filter (fun x => x.id != id)
    if newCache.length = st.cache.length then (st, .notFound, [])
    else
      (writeBetsState { st with cache := newCache } newCache, .ok,
        [.betsUpdate newCache now])

/-- `PUT /api/rate` — set the exchange rate.  `body` is
`Number(req.body.rubPerUsdt)` with `none` for a non-finite result; the
handler rejects non-finite or non-positive values with 400 before writing. -/
def putRate (adminPw pw : String) (body : Option ℚ) (now : ℤ)
    (st : ServerState) : ServerState × ApiResp × List Emit :=
  if pw ≠ adminPw then (st, .unauthorized, [])
  else match body with
    | some v =>
      if 0 < v then
        ({ st with rateCache := v, rateFile := v, rateFileUpdatedAt := now },
          .okRate v, [.rateUpdate v])
      else (st, .badRequest, [])
    | none => (st, .badRequest, [])

/-- The `/api/rate` response (or the in-app guard on `rate:update`) carries a
finite positive number — the validity condition of the exchange-rate policy. -/
def validRateResp (resp : Option JsNum) : Prop :=
  ∃ q, resp = some (JsNum.num q) ∧ 0 < q

instance (resp : Option JsNum) : Decidable (validRateResp resp) :=
  match resp with
  | some (JsNum.num q) =>
    if h : 0 < q then .isTrue ⟨q, rfl, h⟩
      else .isFalse (fun ⟨q2, hq, h2⟩ => by
        cases hq
        exact h h2)
  | some JsNum.nan => .isFalse (fun ⟨_, hq, _⟩ => by cases hq)
  | some JsNum.posInf => .isFalse (fun ⟨_, hq, _⟩ => by cases hq)
  | some JsNum.negInf => .isFalse (fun ⟨_, hq, _⟩ => by cases hq)
  | none => .isFalse (fun ⟨_, hq, _⟩ => by cases hq)

/-! ## Helper lemmas -/

/-- Filtering out PENDING bets is idempotent. -/
theorem eligibleBets_idem (l : List Bet) :
    eligibleBets (eligibleBets l) = eligibleBets l := by
  simp [eligibleBets, List.filter_filter]

/-- A non-PENDING bet survives the eligibility filter. -/
theorem eligibleBets_cons_of_ne (b : Bet) (l : List Bet)
    (h : b.status ≠ STATUS_PENDING) :
    eligibleBets (b :: l) = b :: eligibleBets l := by
  simp [eligibleBets, List.filter_cons, h]

/-- A PENDING bet is dropped by the eligibility filter. -/
theorem eligibleBets_cons_of_pending (b : Bet) (l : List Bet)
    (h : b.status = STATUS_PENDING) :
    eligibleBets (b :: l) = eligibleBets l := by
  simp [eligibleBets, List.filter_cons, h]

/-- Dropping the PENDING prefix of `pre ++ b :: post` stops exactly at `b`. -/
theorem dropWhile_pending_append (pre : List Bet) (b : Bet) (post : List Bet)
    (hpre : ∀ x ∈ pre, x.status = STATUS_PENDING)
    (hb : b.status ≠ STATUS_PENDING) :
    (pre ++ b :: post).dropWhile (fun x => x.status == STATUS_PENDING) = b :: post := by
  induction pre with
  | nil => simp [List.dropWhile_cons, hb]
  | cons x xs ih =>
    have hx : x.status = STATUS_PENDING := hpre x (by simp)
    simpa [List.dropWhile_cons, hx] using ih (fun y hy => hpre y (by simp [hy]))

/-! ## Claim theorems -/

/-- **C1** — The monetary normalizer satisfies the spec's case contract: a
WON bet yields `win_value - stake_value`; a LOST bet yields `win_value` when
`win_value < 0`, else `-stake_value` when `stake_value > 0`, else `0`; a
PENDING bet yields `0`.  Monetary fields are the JS coercions
`Number(x) || 0`.  The LOST case carries the data model's field invariant
`stake_value ≥ 0` ("non-negative decimal amount wagered"), under which the
source's truthiness test `stake ? -stake : 0` coincides with the spec's
`stake_value > 0` test. -/
theorem normalizedWinValue_cases (b : Bet) :
    (b.status = STATUS_WON →
      normalizedWinValue b = numOr0 b.win_value - numOr0 b.stake_value)
    ∧ (b.status = STATUS_PENDING → normalizedWinValue b = 0)
    ∧ (b.status = STATUS_LOST → 0 ≤ numOr0 b.stake_value →
        normalizedWinValue b =
          if numOr0 b.win_value < 0 then numOr0 b.win_value
          else if 0 < numOr0 b.stake_value then -(numOr0 b.stake_value) else 0) := by
  refine ⟨?_, ?_, ?_⟩
  · intro h
    have h1 : b.status ≠ STATUS_LOST := by
      rw [h]; decide
    have h2 : b.status ≠ STATUS_PENDING := by
      rw [h]; decide
    simp [normalizedWinValue, h1, h2]
  · intro h
    simp [normalizedWinValue, h, show STATUS_PENDING ≠ STATUS_LOST from by decide]
  · intro h hs
    simp only [normalizedWinValue, h, if_pos rfl]
    by_cases hw : numOr0 b.win_value < 0
    · simp [hw]
    · rcases lt_or_eq_of_le hs with hp | hp
      · simp [hw, ne_of_gt hp, hp]
      · simp [hw, ← hp]

/-- Witness for C1: the spec's own scenario
`{status: LOST, stake_value: 50, win_value: 0} → -50`. -/
theorem normalizedWinValue_cases_witness :
    normalizedWinValue { status := STATUS_LOST, stake_value := some 50, win_value := some 0 } = -50 := by
  have h := (normalizedWinValue_cases
      { status := STATUS_LOST, stake_value := some 50, win_value := some 0 }).2.2
    rfl (by norm_num [numOr0])
  norm_num [numOr0] at h
  exact h

/-- **C2** — PENDING bets contribute 0 to the normalized result and are
excluded from every aggregator metric: a PENDING bet never enters the
eligible subset from which `total`, `winRate`, `profitUSDT`, the stake sum,
`roi` and `avgOdds` are all computed, so removing PENDING bets up front
leaves `calcStats` unchanged on every input list and rate. -/
theorem calcStats_pending_excluded (b : Bet) (bets : List Bet) (rubRate : ℚ) :
    (b.status = STATUS_PENDING → normalizedWinValue b = 0)
    ∧ (b.status = STATUS_PENDING → eligibleBets (b :: bets) = eligibleBets bets)
    ∧ calcStats (eligibleBets bets) rubRate = calcStats bets rubRate := by
  refine ⟨?_, ?_, ?_⟩
  · intro h
    simp [normalizedWinValue, h, show STATUS_PENDING ≠ STATUS_LOST from by decide]
  · intro h
    exact eligibleBets_cons_of_pending b bets h
  · unfold calcStats
    rw [eligibleBets_idem]

/-- Witness for C2: a list holding one PENDING and one WON bet has the same
statistics as its WON part alone, and the PENDING bet normalizes to 0. -/
theorem calcStats_pending_excluded_witness :
    normalizedWinValue { status := STATUS_PENDING, stake_value := some 10 } = 0
    ∧ eligibleBets [{ status := STATUS_PENDING, stake_value := some 10 },
        { status := STATUS_WON, stake_value := some 10, win_value := some 30 }] =
      eligibleBets [{ status := STATUS_WON, stake_value := some 10, win_value := some 30 }] := by
  constructor
  · exact (calcStats_pending_excluded { status := STATUS_PENDING, stake_value := some 10 } [] 1).1 rfl
  · exact (calcStats_pending_excluded { status := STATUS_PENDING, stake_value := some 10 }
      [{ status := STATUS_WON, stake_value := some 10, win_value := some 30 }] 1).2.1 rfl

/-- **C10** (implicit) — Any bet whose status is neither LOST nor PENDING,
including an unrecognized status string, takes the WON branch of the
normalizer (`win_value - stake_value`, non-numeric fields coerced to 0) and
is counted as eligible by the aggregator: it adds one to `total` (the
`winRate` denominator), and — when its status is not WON — adds nothing to
the WON count (the `winRate` numerator). -/
theorem unknown_status_won_branch (b : Bet) (l : List Bet) (r : ℚ) :
    b.status ≠ STATUS_LOST → b.status ≠ STATUS_PENDING →
    (normalizedWinValue b = numOr0 b.win_value - numOr0 b.stake_value)
    ∧ eligibleBets (b :: l) = b :: eligibleBets l
    ∧ (calcStats (b :: l) r).total = (calcStats l r).total + 1
    ∧ (b.status ≠ STATUS_WON → wonCount (b :: l) = wonCount l) := by
  intro hl hp
  have hcons := eligibleBets_cons_of_ne b l hp
  refine ⟨?_, hcons, ?_, ?_⟩
  · simp [normalizedWinValue, hl, hp]
  · simp [calcStats, statsFromEligible, hcons]
  · intro hw
    simp [wonCount, hcons, List.filter_cons, hw]

/-- Witness for C10: a bet with the unrecognized status `"???"` is eligible
(denominator grows) but not WON (numerator unchanged), and normalizes to
`win - stake`. -/
theorem unknown_status_won_branch_witness :
    normalizedWinValue { status := "???", stake_value := some 7, win_value := some 9 } = 2
    ∧ (calcStats [{ status := "???", stake_value := some 7, win_value := some 9 }] 1).total = 1
    ∧ wonCount [{ status := "???", stake_value := some 7, win_value := some 9 }] = wonCount [] := by
  have h := unknown_status_won_branch
    { status := "???", stake_value := some 7, win_value := some 9 } [] 1
    (by decide) (by decide)
  refine ⟨?_, ?_, ?_⟩
  · rw [h.1]; norm_num [numOr0]
  · rw [h.2.2.1]; decide
  · exact h.2.2.2 (by decide)

/-- **C6** — The `bets:update` handler is idempotent: applying it twice in a
row with the same payload (same receipt clock `now` and same authoritative
marker `meta` resolved by the follow-up `fetchMeta`) leaves the bet cache,
the `lastEventAt` marker and the persisted marker exactly as after one
application — every shape performs a full replacement, never accumulation. -/
theorem applyBetsUpdate_idem (now meta : ℚ) (p : PushPayload) (s : SyncState) :
    applyBetsUpdate now meta p (applyBetsUpdate now meta p s) =
      applyBetsUpdate now meta p s := by
  cases p <;> rfl

/-- **C7** — Currency conversion never divides by zero or by an invalid
rate: the client-side rate (as produced by `fetchRate` from a raw response
value) is always positive, equals the fixed default `80.78` whenever the
supplied value is not a finite positive number, and `toUSDT` on a RUB bet
divides by exactly that guarded positive rate (its own `|| DEFAULT` guard
likewise replaces a zero rate by the default); for a bet in any other unit
the amount passes through unchanged regardless of the rate. -/
theorem toUSDT_rate_guard (amount : ℚ) (b : Bet) (resp : Option JsNum) (r : ℚ) :
    0 < fetchRate resp
    ∧ (¬ validRateResp resp → fetchRate resp = DEFAULT_RUB_RATE)
    ∧ (betUnit b = "RUB" →
        toUSDT amount b (fetchRate resp) = amount / fetchRate resp)
    ∧ (betUnit b = "RUB" → toUSDT amount b 0 = amount / DEFAULT_RUB_RATE)
    ∧ (betUnit b ≠ "RUB" → toUSDT amount b r = amount) := by
  have hpos : 0 < fetchRate resp := by
    match resp with
    | some (JsNum.num q) =>
      by_cases hq : 0 < q
      · simp [fetchRate, hq]
      · simp only [fetchRate, hq, if_false]
        norm_num [DEFAULT_RUB_RATE]
    | some JsNum.nan => norm_num [fetchRate, DEFAULT_RUB_RATE]
    | some JsNum.posInf => norm_num [fetchRate, DEFAULT_RUB_RATE]
    | some JsNum.negInf => norm_num [fetchRate, DEFAULT_RUB_RATE]
    | none => norm_num [fetchRate, DEFAULT_RUB_RATE]
  refine ⟨hpos, ?_, ?_, ?_, ?_⟩
  · intro hinv
    match resp with
    | some (JsNum.num q) =>
      by_cases hq : 0 < q
      · exact absurd ⟨q, rfl, hq⟩ hinv
      · simp [fetchRate, hq]
    | some JsNum.nan => rfl
    | some JsNum.posInf => rfl
    | some JsNum.negInf => rfl
    | none => rfl
  · intro hu
    simp [toUSDT, hu, ne_of_gt hpos]
  · intro hu
    simp [toUSDT, hu]
  · intro hu
    simp [toUSDT, hu]

/-- Witness for C7: a zero raw rate (the spec's "rate absent/zero" scenario)
falls back to the default, and a RUB amount of 8078 converts to 100 USDT
rather than raising a division error. -/
theorem toUSDT_rate_guard_witness :
    fetchRate (some (JsNum.num 0)) = DEFAULT_RUB_RATE
    ∧ toUSDT 8078 { stake_currency := some "RUB" } (fetchRate (some (JsNum.num 0))) = 100
    ∧ toUSDT 5 { stake_currency := some "EUR" } 0 = 5 := by
  have h := toUSDT_rate_guard 8078 { stake_currency := some "RUB" } (some (JsNum.num 0)) 0
  have hinv : ¬ validRateResp (some (JsNum.num 0)) := by decide
  have hdef := h.2.1 hinv
  refine ⟨hdef, ?_, ?_⟩
  · rw [h.2.2.1 (by decide), hdef]
    norm_num [DEFAULT_RUB_RATE]
  · exact (toUSDT_rate_guard 5 { stake_currency := some "EUR" } none 0).2.2.2.2 (by decide)

/-- **C8** — Every mutating server operation (replace collection, add
record, patch record, delete record, set exchange rate) invoked with a
missing or mismatched shared-secret credential answers Unauthorized and
leaves the bet cache, the persisted bets file, the backups, and the
exchange-rate cache/file untouched, emitting no broadcast.  A missing
`x-admin-password` header is the empty string, covered by the mismatch
hypothesis. -/
theorem mutating_requires_auth (adminPw pw : String) (st : ServerState)
    (body : Option (List Bet)) (obj : Bet) (id : String) (p : BetPatch)
    (rateBody : Option ℚ) (today : String) (now : ℤ) :
    pw ≠ adminPw →
    putBets adminPw pw body today now st = (st, ApiResp.unauthorized, [])
    ∧ postBets adminPw pw obj today now st = (st, ApiResp.unauthorized, [])
    ∧ patchBets adminPw pw id p today now st = (st, ApiResp.unauthorized, [])
    ∧ deleteBets adminPw pw id now st = (st, ApiResp.unauthorized, [])
    ∧ putRate adminPw pw rateBody now st = (st, ApiResp.unauthorized, []) := by
  intro h
  refine ⟨?_, ?_, ?_, ?_, ?_⟩ <;>
    simp [putBets, postBets, patchBets, deleteBets, putRate, h]

/-- Witness for C8: the default admin password against an empty header on a
concrete server state. -/
theorem mutating_requires_auth_witness :
    putBets "betoff07" "" none "01/01/2026" 0
        { cache := [], betsFile := [], backups := [], rateCache := 1,
          rateFile := 1, rateFileUpdatedAt := 0 } =
      ({ cache := [], betsFile := [], backups := [], rateCache := 1,
          rateFile := 1, rateFileUpdatedAt := 0 }, ApiResp.unauthorized, [])
    ∧ putRate "betoff07" "" (some 90) 0
        { cache := [], betsFile := [], backups := [], rateCache := 1,
          rateFile := 1, rateFileUpdatedAt := 0 } =
      ({ cache := [], betsFile := [], backups := [], rateCache := 1,
          rateFile := 1, rateFileUpdatedAt := 0 }, ApiResp.unauthorized, []) := by
  have h := mutating_requires_auth "betoff07" ""
    { cache := [], betsFile := [], backups := [], rateCache := 1,
      rateFile := 1, rateFileUpdatedAt := 0 }
    none { } "x" { } (some 90) "01/01/2026" 0 (by decide)
  exact ⟨h.1, h.2.2.2.2⟩

/-- **C5** — The streak detector scans the ordered list from the front:
a list with no non-PENDING entry (including the empty list) yields length 0;
otherwise the target outcome is the status of the first non-PENDING entry
and the count is taken by the loop `streakCount`, which skips PENDING
entries without breaking, increments on entries matching the target, and
stops (without counting) at the first non-PENDING entry that differs.  On
the ordered statuses `[PENDING, WON, WON, LOST, WON]` the result is the WON
outcome (`kind = "побед"`) with length 2. -/
theorem calcStreak_spec :
    (∀ l : List Bet, (∀ b ∈ l, b.status = STATUS_PENDING) →
      calcStreak l = { kind := "нет", count := 0 })
    ∧ (∀ (pre : List Bet) (b : Bet) (post : List Bet),
        (∀ x ∈ pre, x.status = STATUS_PENDING) → b.status ≠ STATUS_PENDING →
        calcStreak (pre ++ b :: post) =
          { kind := if b.status = STATUS_WON then "побед" else "поражений"
            count := streakCount b.status (b :: post) })
    ∧ (∀ (t : String) (b : Bet) (rest : List Bet),
        (b.status = STATUS_PENDING → streakCount t (b :: rest) = streakCount t rest)
        ∧ (b.status ≠ STATUS_PENDING → b.status = t →
            streakCount t (b :: rest) = streakCount t rest + 1)
        ∧ (b.status ≠ STATUS_PENDING → b.status ≠ t →
            streakCount t (b :: rest) = 0))
    ∧ calcStreak [{ status := STATUS_PENDING }, { status := STATUS_WON },
        { status := STATUS_WON }, { status := STATUS_LOST },
        { status := STATUS_WON }] = { kind := "побед", count := 2 } := by
  refine ⟨?_, ?_, ?_, by decide⟩
  · intro l hl
    have hdrop : l.dropWhile (fun b => b.status == STATUS_PENDING) = [] :=
      List.dropWhile_eq_nil_iff.mpr (fun x hx => by simp [hl x hx])
    simp [calcStreak, hdrop]
  · intro pre b post hpre hb
    simp [calcStreak, dropWhile_pending_append pre b post hpre hb]
  · intro t b rest
    refine ⟨?_, ?_, ?_⟩
    · intro h
      simp [streakCount, h]
    · intro h ht
      simp only [streakCount]
      rw [if_neg h, if_pos ht]
    · intro h ht
      simp only [streakCount]
      rw [if_neg h, if_neg ht]

/-- Witness for C5: a PENDING prefix is skipped and the WON run counted. -/
theorem calcStreak_spec_witness :
    calcStreak [{ status := STATUS_PENDING }, { status := STATUS_WON }] =
      { kind := "побед", count := 1 } := by
  have h := calcStreak_spec.2.1 [{ status := STATUS_PENDING }]
    { status := STATUS_WON } [] (by decide) (by decide)
  simpa using h

/-- **C3** — Date parsing validates that rebuilding a date from its parsed
day/month/year components yields the same components (every successful
parse carries the component round-trip through `new Date`); the invalid
calendar string `"31/02/2024"` fails this check and is treated as
unparsable, and any bet whose `added_date` is unparsable is excluded from
the WEEK and MONTH window filters, for every input list and reference
`now`. -/
theorem parse_validates_roundtrip (bets : List Bet) (now : CivilDate) (b : Bet) :
    parseDMYtoMs (some "31/02/2024") = none
    ∧ (∀ s t, parseDMYcore s = some t →
        ∃ d mo y, dmyParts s = some (d, mo, y)
          ∧ civilFromDays (jsMakeDate (y : ℤ) ((mo : ℤ) - 1) (d : ℤ)) =
              ((y : ℤ), (mo : ℤ), (d : ℤ))
          ∧ t = 86400000 * jsMakeDate (y : ℤ) ((mo : ℤ) - 1) (d : ℤ))
    ∧ (parseDMYtoMs b.added_date = none →
        b ∉ filterBetsByAddedDate bets "WEEK" now
        ∧ b ∉ filterBetsByAddedDate bets "MONTH" now) := by
  refine ⟨by decide, ?_, ?_⟩
  · intro s t h
    unfold parseDMYcore at h
    cases hp : dmyParts s with
    | none => rw [hp] at h; cases h
    | some parts =>
      obtain ⟨d, mo, y⟩ := parts
      rw [hp] at h
      simp only at h
      by_cases hc : civilFromDays (jsMakeDate (y : ℤ) ((mo : ℤ) - 1) (d : ℤ)) =
          ((y : ℤ), (mo : ℤ), (d : ℤ))
      · rw [if_pos hc] at h
        exact ⟨d, mo, y, rfl, hc, (Option.some.inj h).symm⟩
      · rw [if_neg hc] at h
        cases h
  · intro hparse
    constructor
    · intro hmem
      unfold filterBetsByAddedDate at hmem
      rw [if_neg (by decide), if_pos rfl] at hmem
      have hb := (List.mem_filter.mp hmem).2
      rw [hparse] at hb
      cases hb
    · intro hmem
      unfold filterBetsByAddedDate at hmem
      rw [if_neg (by decide), if_neg (by decide)] at hmem
      have hb := (List.mem_filter.mp hmem).2
      rw [hparse] at hb
      cases hb

/-- Witness for C3: the bet dated `"31/02/2024"` is excluded from the WEEK
and MONTH filters at a reference date inside February 2024. -/
theorem parse_validates_roundtrip_witness :
    { added_date := some "31/02/2024" : Bet } ∉
        filterBetsByAddedDate [{ added_date := some "31/02/2024" }] "WEEK" ⟨2024, 2, 15⟩
    ∧ { added_date := some "31/02/2024" : Bet } ∉
        filterBetsByAddedDate [{ added_date := some "31/02/2024" }] "MONTH" ⟨2024, 2, 15⟩ :=
  (parse_validates_roundtrip [{ added_date := some "31/02/2024" }] ⟨2024, 2, 15⟩
      { added_date := some "31/02/2024" }).2.2 (by decide)

/-- **C4** — For every list of bets and every fixed reference `now`, the
window filters are nested: every bet selected by the DAY filter is also
selected by the WEEK filter, and every bet selected by the WEEK filter
whose date lies in the current calendar month (its parsed timestamp falls
between the first-of-month and first-of-next-month midnights) is selected
by the MONTH filter.  The hypothesis is the spec's "given consistent date
parsing" proviso as an explicit fact about `now`: today's own `DD/MM/YYYY`
string parses back to today's midnight — true of every calendar date the
system clock can produce, and discharged by evaluation in the witness. -/
theorem day_week_month_nested (bets : List Bet) (now : CivilDate) (b : Bet) :
    parseDMYcore (todayDMY now) = some (todayMs now) →
    (b ∈ filterBetsByAddedDate bets "DAY" now →
      b ∈ filterBetsByAddedDate bets "WEEK" now)
    ∧ (∀ t, b ∈ filterBetsByAddedDate bets "WEEK" now →
        parseDMYtoMs b.added_date = some t →
        startMonthMs now ≤ t → t < startNextMonthMs now →
        b ∈ filterBetsByAddedDate bets "MONTH" now) := by
  intro hday
  constructor
  · intro hmem
    unfold filterBetsByAddedDate at hmem
    rw [if_pos rfl] at hmem
    obtain ⟨hb, hpred⟩ := List.mem_filter.mp hmem
    have heq : jsTrim (strOr b.added_date "") = todayDMY now := by
      simpa using hpred
    have hparse : parseDMYtoMs b.added_date = some (todayMs now) := by
      unfold parseDMYtoMs
      rw [heq]
      exact hday
    unfold filterBetsByAddedDate
    rw [if_neg (by decide), if_pos rfl]
    refine List.mem_filter.mpr ⟨hb, ?_⟩
    simp only [hparse, Bool.and_eq_true, decide_eq_true_eq]
    omega
  · intro t hmem hparse h1 h2
    unfold filterBetsByAddedDate at hmem
    rw [if_neg (by decide), if_pos rfl] at hmem
    have hb := (List.mem_filter.mp hmem).1
    unfold filterBetsByAddedDate
    rw [if_neg (by decide), if_neg (by decide)]
    refine List.mem_filter.mpr ⟨hb, ?_⟩
    simp only [hparse, Bool.and_eq_true, decide_eq_true_eq]
    exact ⟨h1, h2⟩

/-- Witness for C4: at the reference date 12/10/2026, a bet added today is
selected by DAY, hence by WEEK, and (being inside October 2026) by MONTH. -/
theorem day_week_month_nested_witness :
    ({ added_date := some "12/10/2026" : Bet }) ∈
        filterBetsByAddedDate [{ added_date := some "12/10/2026" }] "WEEK" ⟨2026, 10, 12⟩
    ∧ ({ added_date := some "12/10/2026" : Bet }) ∈
        filterBetsByAddedDate [{ added_date := some "12/10/2026" }] "MONTH" ⟨2026, 10, 12⟩ := by
  have h := day_week_month_nested [{ added_date := some "12/10/2026" }]
    ⟨2026, 10, 12⟩ { added_date := some "12/10/2026" } (by decide)
  have hweek := h.1 (by decide)
  exact ⟨hweek, h.2 1791763200000 hweek (by decide) (by decide) (by decide)⟩

/-- **C9** — A successful PATCH of a record by id merges only the supplied
fields: (i) per field, the patched record keeps the previous value of every
field not named in the payload — in particular `added_date`, once set, is
only overwritten when explicitly included — and ends with `added_date` set
(non-falsy, given a non-empty `today` string); (ii) the patched collection
rewrites exactly the first record whose id matches and leaves every other
record unchanged; (iii) the authorized handler on a found id produces
exactly that collection, persists it with one backup, answers ok and
broadcasts it. -/
theorem patch_merge_frame :
    (∀ (today : String) (p : BetPatch) (b : Bet), today ≠ "" →
      (p.id = none → (applyPatchBet today p b).id = b.id)
      ∧ (p.matchField = none → (applyPatchBet today p b).matchField = b.matchField)
      ∧ (p.betField = none → (applyPatchBet today p b).betField = b.betField)
      ∧ (p.status = none → (applyPatchBet today p b).status = b.status)
      ∧ (p.stake_value = none → (applyPatchBet today p b).stake_value = b.stake_value)
      ∧ (p.stake_currency = none → (applyPatchBet today p b).stake_currency = b.stake_currency)
      ∧ (p.coef = none → (applyPatchBet today p b).coef = b.coef)
      ∧ (p.win_value = none → (applyPatchBet today p b).win_value = b.win_value)
      ∧ (p.win_currency = none → (applyPatchBet today p b).win_currency = b.win_currency)
      ∧ (p.time = none → (applyPatchBet today p b).time = b.time)
      ∧ (p.added_date = none → strFalsy b.added_date = false →
          (applyPatchBet today p b).added_date = b.added_date)
      ∧ strFalsy (applyPatchBet today p b).added_date = false)
    ∧ (∀ (id : String) (f : Bet → Bet) (l l2 : List Bet),
        patchList id f l = some l2 →
        ∃ pre tgt post, l = pre ++ tgt :: post ∧ l2 = pre ++ f tgt :: post
          ∧ tgt.id = id ∧ ∀ x ∈ pre, x.id ≠ id)
    ∧ (∀ (adminPw id : String) (p : BetPatch) (today : String) (now : ℤ)
        (st : ServerState) (l2 : List Bet),
        patchList id (applyPatchBet today p) st.cache = some l2 →
        patchBets adminPw adminPw id p today now st =
          ({ st with cache := l2, betsFile := l2, backups := st.backups ++ [l2] },
            ApiResp.ok, [Emit.betsUpdate l2 now])) := by
  refine ⟨?_, ?_, ?_⟩
  · intro today p b htoday
    refine ⟨?_, ?_, ?_, ?_, ?_, ?_, ?_, ?_, ?_, ?_, ?_, ?_⟩
    · intro hF
      simp only [applyPatchBet]
      split <;> simp [mergeBet, hF]
    · intro hF
      simp only [applyPatchBet]
      split <;> simp [mergeBet, hF]
    · intro hF
      simp only [applyPatchBet]
      split <;> simp [mergeBet, hF]
    · intro hF
      simp only [applyPatchBet]
      split <;> simp [mergeBet, hF]
    · intro hF
      simp only [applyPatchBet]
      split <;> simp [mergeBet, hF]
    · intro hF
      simp only [applyPatchBet]
      split <;> simp [mergeBet, hF]
    · intro hF
      simp only [applyPatchBet]
      split <;> simp [mergeBet, hF]
    · intro hF
      simp only [applyPatchBet]
      split <;> simp [mergeBet, hF]
    · intro hF
      simp only [applyPatchBet]
      split <;> simp [mergeBet, hF]
    · intro hF
      simp only [applyPatchBet]
      split <;> simp [mergeBet, hF]
    · intro hF hset
      have hm : (mergeBet b p).added_date = b.added_date := by
        simp [mergeBet, hF]
      simp [applyPatchBet, hm, hset]
    · by_cases hf : strFalsy (mergeBet b p).added_date
      · simp only [applyPatchBet]
        rw [if_pos hf]
        simp [strFalsy, htoday]
      · simp only [applyPatchBet]
        rw [if_neg hf]
        simp only [Bool.not_eq_true] at hf
        exact hf
  · intro id f l
    induction l with
    | nil => intro l2 h; cases h
    | cons x xs ih =>
      intro l2 h
      unfold patchList at h
      by_cases hx : x.id = id
      · rw [if_pos hx] at h
        exact ⟨[], x, xs, rfl, by simpa using (Option.some.inj h).symm, hx, by simp⟩
      · rw [if_neg hx] at h
        cases hrec : patchList id f xs with
        | none => rw [hrec] at h; cases h
        | some l3 =>
          rw [hrec] at h
          obtain ⟨pre, tgt, post, hl, hl2, hid, hpre⟩ := ih l3 hrec
          refine ⟨x :: pre, tgt, post, by simp [hl], ?_, hid, ?_⟩
          · have : l2 = x :: l3 := by simpa using (Option.some.inj h).symm
            simp [this, hl2]
          · intro z hz
            rcases List.mem_cons.mp hz with hz1 | hz2
            · rw [hz1]; exact hx
            · exact hpre z hz2
  · intro adminPw id p today now st l2 hfound
    simp [patchBets, hfound, writeBetsState]

/-- Witness for C9: patching only `status` on a dated record keeps its
stake and its `added_date`, and the authorized handler rewrites exactly the
matching record. -/
theorem patch_merge_frame_witness :
    (applyPatchBet "07/07/2026" { status := some STATUS_WON }
        { id := "a", status := STATUS_LOST, stake_value := some 5,
          added_date := some "05/01/2025" }).added_date = some "05/01/2025"
    ∧ (applyPatchBet "07/07/2026" { status := some STATUS_WON }
        { id := "a", status := STATUS_LOST, stake_value := some 5,
          added_date := some "05/01/2025" }).stake_value = some 5
    ∧ strFalsy (applyPatchBet "07/07/2026" { status := some STATUS_WON }
        { id := "a", status := STATUS_LOST, stake_value := some 5,
          added_date := some "05/01/2025" }).added_date = false
    ∧ patchBets "betoff07" "betoff07" "a" { status := some STATUS_WON } "07/07/2026" 5
        { cache := [{ id := "z" },
            { id := "a", status := STATUS_LOST, stake_value := some 5,
              added_date := some "05/01/2025" }],
          betsFile := [], backups := [], rateCache := 1, rateFile := 1,
          rateFileUpdatedAt := 0 } =
      ({ cache := [{ id := "z" },
            applyPatchBet "07/07/2026" { status := some STATUS_WON }
              { id := "a", status := STATUS_LOST, stake_value := some 5,
                added_date := some "05/01/2025" }],
          betsFile := [{ id := "z" },
            applyPatchBet "07/07/2026" { status := some STATUS_WON }
              { id := "a", status := STATUS_LOST, stake_value := some 5,
                added_date := some "05/01/2025" }],
          backups := [[{ id := "z" },
            applyPatchBet "07/07/2026" { status := some STATUS_WON }
              { id := "a", status := STATUS_LOST, stake_value := some 5,
                added_date := some "05/01/2025" }]],
          rateCache := 1, rateFile := 1, rateFileUpdatedAt := 0 },
        ApiResp.ok,
        [Emit.betsUpdate [{ id := "z" },
            applyPatchBet "07/07/2026" { status := some STATUS_WON }
              { id := "a", status := STATUS_LOST, stake_value := some 5,
                added_date := some "05/01/2025" }] 5]) := by
  have hfields := patch_merge_frame.1 "07/07/2026" { status := some STATUS_WON }
    { id := "a", status := STATUS_LOST, stake_value := some 5,
      added_date := some "05/01/2025" } (by decide)
  refine ⟨?_, ?_, ?_, ?_⟩
  · exact hfields.2.2.2.2.2.2.2.2.2.2.1 rfl (by decide)
  · exact hfields.2.2.2.2.1 rfl
  · exact hfields.2.2.2.2.2.2.2.2.2.2.2
  · exact patch_merge_frame.2.2 "betoff07" "a" { status := some STATUS_WON }
      "07/07/2026" 5
      { cache := [{ id := "z" },
          { id := "a", status := STATUS_LOST, stake_value := some 5,
            added_date := some "05/01/2025" }],
        betsFile := [], backups := [], rateCache := 1, rateFile := 1,
        rateFileUpdatedAt := 0 }
      [{ id := "z" },
        applyPatchBet "07/07/2026" { status := some STATUS_WON }
          { id := "a", status := STATUS_LOST, stake_value := some 5,
            added_date := some "05/01/2025" }]
      (by decide)

end Betoff
